import Mathlib

/-!
Shallow embedding of `src/main.rs` (a nom-based vCard parser).

Rust `&str` slices are modeled as `List Char`.  The nom result type
`IResult<&str, O> = Result<(&str, O), nom::Err<Error<&str>>>` is modeled as
`Except NomError (Input × O)`; complete-input parsers only ever produce
`nom::Err::Error(Error { input, code })`, captured by `NomError`.

The in-place `unfold(&mut String)` works on byte indices and can panic when
it slices the string at a byte index that is not a character boundary; it is
modeled as `Input → Option Input`, `none` meaning a panic.
-/

namespace VCF

abbrev Input := List Char

/-- Rust `static EQUAL: &str = "=";` -/
def EQUAL : Input := [ '=' ]

/-- Rust `static COLON: &str = ":";` -/
def COLON : Input := [ ':' ]

/-- Rust `static SEMI: &str = ";";` -/
def SEMI : Input := [ ';' ]

/-- Rust `static LF: &str = "\r\n";` -/
def LF : Input := [ '\r', '\n' ]

/-- Rust `static COMMA: &str = ",";` (unused by the parser). -/
def COMMA : Input := [ ',' ]

/-- Rust `static END: &str = "END";` -/
def END : Input := [ 'E', 'N', 'D' ]

/-- The nom error codes produced by the combinators this program uses. -/
inductive ErrorKind where
  | Tag
  | TakeUntil
  | ManyTill
  | SeparatedList
deriving DecidableEq

/-- nom `Error { input, code }`: the remaining input at the failure point and
the error code. -/
structure NomError where
  input : Input
  code : ErrorKind
deriving DecidableEq

/-- nom `IResult<&str, O>` for complete input. -/
abbrev IResult (O : Type) := Except NomError (Input × O)

/-- nom `tag(t)`: consume the literal `t` or fail with `ErrorKind::Tag`. -/
def tag (t : Input) (input : Input) : IResult Input :=
  if t.isPrefixOf input then .ok (input.drop t.length, t)
  else .error ⟨input, .Tag⟩

/-- ASCII lower-casing of one character (how nom's `tag_no_case` compares the
ASCII tags used by this program). -/
def asciiLower (c : Char) : Char :=
  if 'A' ≤ c ∧ c ≤ 'Z' then Char.ofNat (c.toNat + 32) else c

/-- nom `tag_no_case(t)`: consume a case-insensitive match of `t` or fail with
`ErrorKind::Tag`.  All tags in this program are ASCII, for which character-wise
ASCII case folding coincides with nom's comparison. -/
def tag_no_case (t : Input) (input : Input) : IResult Input :=
  if (input.take t.length).map asciiLower = t.map asciiLower then
    .ok (input.drop t.length, input.take t.length)
  else .error ⟨input, .Tag⟩

/-- Index of the first occurrence of the pattern `t` in the input, scanning the
whole remaining input (this is what nom's `take_until` searches for). -/
def takeUntilIdx (t : Input) : Input → Option Nat
  | [] => none
  | c :: cs =>
    if t.isPrefixOf (c :: cs) then some 0
    else (takeUntilIdx t cs).map (· + 1)

/-- nom `take_until(t)`: return the input up to (not including) the first
occurrence of `t` anywhere in the remaining input, or fail with
`ErrorKind::TakeUntil` when `t` does not occur at all. -/
def take_until (t : Input) (input : Input) : IResult Input :=
  match takeUntilIdx t input with
  | some k => .ok (input.drop k, input.take k)
  | none => .error ⟨input, .TakeUntil⟩

/-- nom `alt((p, q))`: try `p`; on error try `q`; on both failing, the error of
the last alternative is returned. -/
def alt (p q : Input → IResult Input) (input : Input) : IResult Input :=
  match p input with
  | .ok r => .ok r
  | .error _ => q input

/-- Rust `parse_property_parameter`:
`separated_pair(take_until(EQUAL), tag(EQUAL), alt((take_until(SEMI), take_until(COLON))))`. -/
def parse_property_parameter (input : Input) : IResult (Input × Input) :=
  match take_until EQUAL input with
  | .error e => .error e
  | .ok (i1, k) =>
    match tag EQUAL i1 with
    | .error e => .error e
    | .ok (i2, _) =>
      match alt (take_until SEMI) (take_until COLON) i2 with
      | .error e => .error e
      | .ok (i3, v) => .ok (i3, (k, v))

/-- Character-wise ASCII upper-casing, modeling Rust `str::to_uppercase` (they
agree on ASCII; no character relevant to the `END` comparison differs). -/
def asciiUpperChar (c : Char) : Char :=
  if 'a' ≤ c ∧ c ≤ 'z' then Char.ofNat (c.toNat - 32) else c

/-- Rust `name.to_uppercase()`. -/
def to_uppercase (s : Input) : Input := s.map asciiUpperChar

/-- Rust `parse_property_name`: take until the first `;` anywhere in the
remaining input, or failing that until the first `:`; then reject a name whose
upper-casing is `END` with a `Tag` error on the remaining input. -/
def parse_property_name (input : Input) : IResult Input :=
  match alt (take_until SEMI) (take_until COLON) input with
  | .error e => .error e
  | .ok (rest, name) =>
    if to_uppercase name = END then .error ⟨rest, .Tag⟩
    else .ok (rest, name)

/-- Loop of nom `many_till(preceded(tag(SEMI), parse_property_parameter), tag(COLON))`.
The fuel argument only bounds the iteration count; each accepted step consumes
at least the leading `;`, so `input.length + 1` (the value `parse_parameters`
passes) is never exhausted and the fuel-0 sentinel is unreachable. -/
def manyTillGo : Nat → Input → IResult (List (Input × Input) × Input)
  | 0, input => .error ⟨input, .ManyTill⟩
  | fuel + 1, input =>
    match tag COLON input with
    | .ok (i1, o) => .ok (i1, ([], o))
    | .error _ =>
      match tag SEMI input with
      | .error e => .error e
      | .ok (i0, _) =>
        match parse_property_parameter i0 with
        | .error e => .error e
        | .ok (i1, o) =>
          if i1.length = input.length then .error ⟨i1, .ManyTill⟩
          else
            match manyTillGo fuel i1 with
            | .error e => .error e
            | .ok (i2, r) => .ok (i2, (o :: r.1, r.2))

/-- Rust `parse_parameters`:
`many_till(preceded(tag(SEMI), parse_property_parameter), tag(COLON))`. -/
def parse_parameters (input : Input) : IResult (List (Input × Input) × Input) :=
  manyTillGo (input.length + 1) input

/-- Rust `parse_property_value`: take the rest of the line up to `\r\n` and
wrap it, unsplit, in a one-element vector. -/
def parse_property_value (input : Input) : IResult (List Input) :=
  match take_until LF input with
  | .error e => .error e
  | .ok (i1, v) => .ok (i1, [v])

/-- Rust `struct Property`. -/
structure Property where
  group : Option Input
  name : Input
  params : List (Input × Input)
  value : List Input
deriving DecidableEq

/-- Rust `parse_property`: name, then parameters up to `:`, then value; the
`group` field is always set to `None`. -/
def parse_property (input : Input) : IResult Property :=
  match parse_property_name input with
  | .error e => .error e
  | .ok (i1, name) =>
    match parse_parameters i1 with
    | .error e => .error e
    | .ok (i2, pr) =>
      match parse_property_value i2 with
      | .error e => .error e
      | .ok (i3, value) =>
        .ok (i3, { group := none, name := name, params := pr.1, value := value })

/-- Loop of nom `separated_list1(tag(LF), parse_property)` after the first
element: on a separator or element failure the separator is not consumed and
the list so far is returned.  As in `manyTillGo`, the fuel bound
`input.length + 1` is never exhausted since each accepted step consumes the
two-character separator. -/
def sepListLoop : Nat → Input → IResult (List Property)
  | 0, input => .error ⟨input, .SeparatedList⟩
  | fuel + 1, input =>
    match tag LF input with
    | .error _ => .ok (input, [])
    | .ok (i1, _) =>
      if i1.length = input.length then .error ⟨i1, .SeparatedList⟩
      else
        match parse_property i1 with
        | .error _ => .ok (input, [])
        | .ok (i2, o) =>
          match sepListLoop fuel i2 with
          | .error e => .error e
          | .ok (i3, os) => .ok (i3, o :: os)

/-- Rust `parse_properties`: `separated_list1(tag(LF), parse_property)`; the
first element's error propagates unchanged. -/
def parse_properties (input : Input) : IResult (List Property) :=
  match parse_property input with
  | .error e => .error e
  | .ok (i1, o) =>
    match sepListLoop (i1.length + 1) i1 with
    | .error e => .error e
    | .ok (i2, os) => .ok (i2, o :: os)

/-- Rust `parse_vcf_begin`: `tuple((tag_no_case("BEGIN:VCARD"), tag(LF)))`. -/
def parse_vcf_begin (input : Input) : IResult Unit :=
  match tag_no_case (("BEGIN:VCARD").data) input with
  | .error e => .error e
  | .ok (i1, _) =>
    match tag LF i1 with
    | .error e => .error e
    | .ok (i2, _) => .ok (i2, ())

/-- Rust `parse_vcf_end`: `tuple((tag_no_case("END:VCARD"), tag(LF)))`. -/
def parse_vcf_end (input : Input) : IResult Unit :=
  match tag_no_case (("END:VCARD").data) input with
  | .error e => .error e
  | .ok (i1, _) =>
    match tag LF i1 with
    | .error e => .error e
    | .ok (i2, _) => .ok (i2, ())

/-- Rust `parse_version_3`: `tuple((tag_no_case("VERSION:3.0"), tag(LF)))`. -/
def parse_version_3 (input : Input) : IResult Nat :=
  match tag_no_case (("VERSION:3.0").data) input with
  | .error e => .error e
  | .ok (i1, _) =>
    match tag LF i1 with
    | .error e => .error e
    | .ok (i2, _) => .ok (i2, 3)

/-- Rust `parse`: envelope open, version, property list, one `LF`, envelope
close; returns the properties with the remaining input. -/
def parse (input : Input) : IResult (List Property) :=
  match parse_vcf_begin input with
  | .error e => .error e
  | .ok (i1, _) =>
    match parse_version_3 i1 with
    | .error e => .error e
    | .ok (i2, _) =>
      match parse_properties i2 with
      | .error e => .error e
      | .ok (i3, properties) =>
        match tag LF i3 with
        | .error e => .error e
        | .ok (i4, _) =>
          match parse_vcf_end i4 with
          | .error e => .error e
          | .ok (i5, _) => .ok (i5, properties)

/-- UTF-8 encoded length in bytes of one character (Rust `char::len_utf8`). -/
def utf8Len (c : Char) : Nat :=
  if c.toNat < 128 then 1
  else if c.toNat < 2048 then 2
  else if c.toNat < 65536 then 3
  else 4

/-- Length in bytes of the UTF-8 encoding of a string (Rust `String::len`). -/
def byteLen (s : Input) : Nat := (s.map utf8Len).sum

/-- Split a string at byte index `n`: `some (prefix, suffix)` when `n` is a
character boundary with `n` bytes before it, `none` otherwise (where Rust
slicing `&input[n..]` would panic). -/
def byteSplit : Input → Nat → Option (Input × Input)
  | s, 0 => some ([], s)
  | [], _ + 1 => none
  | c :: cs, n + 1 =>
    if utf8Len c ≤ n + 1 then
      match byteSplit cs (n + 1 - utf8Len c) with
      | some (pre, suf) => some (c :: pre, suf)
      | none => none
    else none

/-- The loop body of Rust `unfold`, scanning byte index `i`: stop once `i` is
past the end; slice at `i` (panic, i.e. `none`, off a character boundary);
when the suffix starts with `\r\n` and the slice two bytes further starts with
a space, remove those three characters; in every case continue at `i + 1`.
The fuel decreases once per iteration; `i` grows by one per iteration while
the byte length never grows, so the `byteLen s + 1` supplied by `unfold` is
never exhausted and the fuel-0 sentinel is unreachable. -/
def unfoldLoop : Nat → Input → Nat → Option Input
  | 0, _, _ => none
  | fuel + 1, s, i =>
    if byteLen s ≤ i then some s
    else
      match byteSplit s i with
      | none => none
      | some (pre, suf) =>
        if LF.isPrefixOf suf then
          if ([ ' ' ]).isPrefixOf (suf.drop 2) then
            unfoldLoop fuel (pre ++ suf.drop 3) (i + 1)
          else unfoldLoop fuel s (i + 1)
        else unfoldLoop fuel s (i + 1)

/-- Rust `unfold(&mut String)`, as a function returning the final contents, or
`none` when the Rust code would panic (string slicing at a non-boundary). -/
def unfold (s : Input) : Option Input := unfoldLoop (byteLen s + 1) s 0

/-- The physical fold marker: line terminator followed by one space. -/
def marker : Input := [ '\r', '\n', ' ' ]

/-- Whether the fold marker occurs anywhere in the string. -/
def hasMarker : Input → Bool
  | [] => false
  | c :: cs => marker.isPrefixOf (c :: cs) || hasMarker cs

/-- Whether every character is ASCII (one UTF-8 byte). -/
def allAscii (s : Input) : Bool := s.all (fun c => c.toNat < 128)

/-- The end-to-end input of the spec's scenario (claim C1). -/
def c1input : Input :=
  ("BEGIN:VCARD\r\nVERSION:3.0\r\nFN:Hello Betty\r\nEMAIL;TYPE=INTERNET:hello.betty@gmail.com\r\nEND:VCARD\r\n").data

/-- The single record that `parse` actually produces on `c1input`: the name
scan runs to the first `;` of the EMAIL line, fusing the two property lines. -/
def c1rec : Property :=
  { group := none
    name := ("FN:Hello Betty\r\nEMAIL").data
    params := [((("TYPE").data), (("INTERNET").data))]
    value := [(("hello.betty@gmail.com").data)] }

/-- A well-formed document whose only property line is `NAME:a,b,c` (claim C2). -/
def c2input : Input :=
  ("BEGIN:VCARD\r\nVERSION:3.0\r\nNAME:a,b,c\r\nEND:VCARD\r\n").data

/-- The record `parse` produces on `c2input`: the value is one unsplit fragment. -/
def c2rec : Property :=
  { group := none
    name := ("NAME").data
    params := []
    value := [(("a,b,c").data)] }

/-- A document whose third line `X` has no `:` before its terminator (claim C5). -/
def c5input : Input :=
  ("BEGIN:VCARD\r\nVERSION:3.0\r\nX\r\nA:B\r\nEND:VCARD\r\n").data

/-- The record `parse` produces on `c5input`: the name crosses the terminator. -/
def c5rec : Property :=
  { group := none
    name := ("X\r\nA").data
    params := []
    value := [(("B").data)] }

/-- The property line of claim C8, with its terminator. -/
def c8line : Input := ("NAME;A=1;B=2:value\r\n").data

/-- The record `parse_property` produces on `c8line`. -/
def c8rec : Property :=
  { group := none
    name := ("NAME").data
    params := [((("A").data), (("1").data)), ((("B").data), (("2").data))]
    value := [(("value").data)] }

/-- The empty-body envelope of claim C9. -/
def c9input : Input := ("BEGIN:VCARD\r\nVERSION:3.0\r\nEND:VCARD\r\n").data

/-- Two consecutive fold markers followed by `x` (claim C4). -/
def c4input : Input := ("\r\n \r\n x").data

/-- One non-ASCII character (U+00E9), on which `unfold` panics (claim C6). -/
def c6input : Input := [ Char.ofNat 233 ]

/-- Whether a nom result is a success. -/
def isOkRes {O : Type} : IResult O → Bool
  | .ok _ => true
  | .error _ => false

/-- Claim C1 counterexample: on the five-line scenario input, `parse` returns
one record, not two; the name scan runs to the first `;` of the EMAIL line, so
the FN and EMAIL lines fuse into a single record. -/
theorem C1_counterexample :
    parse c1input = .ok ([], [c1rec]) ∧ [c1rec].length ≠ 2 :=
  ⟨rfl, by decide⟩

/-- Claim C1 amended: on the five-line scenario input, `parse` succeeds and
returns exactly one record, with name `FN:Hello Betty\r\nEMAIL`, parameters
`[("TYPE", "INTERNET")]` and values `["hello.betty@gmail.com"]`. -/
theorem C1_theorem : parse c1input = .ok ([], [c1rec]) := rfl

/-- Claim C2 counterexample: the value region of `NAME:a,b,c` is not split on
commas; `parse` returns the single fragment `"a,b,c"`. -/
theorem C2_counterexample :
    parse c2input = .ok ([], [c2rec]) ∧
      c2rec.value ≠ [(("a").data), (("b").data), (("c").data)] :=
  ⟨rfl, by decide⟩

/-- Claim C3 counterexample: on the line `FN:a;b`, whose first `:` precedes its
first `;`, the parsed name token is `FN:a`, not `FN`: the scan for `;` runs
past the `:`. -/
theorem C3_counterexample :
    parse_property_name (("FN:a;b").data) = .ok ((";b").data, ("FN:a").data) ∧
      ("FN:a").data ≠ ("FN").data :=
  ⟨rfl, by decide⟩

/-- Claim C4 counterexample: `unfold` is not idempotent.  On two consecutive
fold markers, one pass removes only the first marker (the scan resumes past
the splice point), so a second pass removes another. -/
theorem C4_counterexample :
    unfold c4input = some (("\r\n x").data) ∧
      (unfold c4input).bind unfold = some (("x").data) ∧
      (unfold c4input).bind unfold ≠ unfold c4input :=
  ⟨rfl, rfl, by decide⟩

/-- Claim C5 counterexample: an input whose third logical line `X` contains no
`:` before its terminator does not make `parse` fail: the header scan crosses
the terminator and finds the `:` of the next line, and `parse` succeeds with a
record named `X\r\nA`. -/
theorem C5_counterexample :
    parse c5input = .ok ([], [c5rec]) ∧ isOkRes (parse c5input) = true :=
  ⟨rfl, rfl⟩

/-- Claim C6 counterexample: `unfold` does not terminate normally on every
UTF-8 input: on a single two-byte character the byte-index scan slices at a
non-boundary and panics (modeled as `none`). -/
theorem C6_counterexample : (unfold c6input).isSome = false := rfl

/-- Claim C8: parameters are collected in encounter order; on the line
`NAME;A=1;B=2:value` the parsed parameters are `[("A","1"), ("B","2")]`. -/
theorem C8_theorem : parse_property c8line = .ok ((("\r\n").data), c8rec) := rfl

/-- Claim C9: the empty-body envelope `BEGIN:VCARD\r\nVERSION:3.0\r\nEND:VCARD\r\n`
fails to parse and yields no records: the first (mandatory) property parse hits
the `END` reserved-name guard and its error propagates out of `parse`. -/
theorem C9_theorem :
    parse c9input = .error ⟨((":VCARD\r\n").data), .Tag⟩ := rfl

/-- A one-character pattern that occurs nowhere in the input is never found by
the `take_until` scan. -/
theorem takeUntilIdx_eq_none (c : Char) (l : Input) (h : c ∉ l) :
    takeUntilIdx [ c ] l = none := by
  induction l with
  | nil => rfl
  | cons x xs ih =>
    have hx : ¬c = x := fun hcx => h (hcx ▸ List.mem_cons_self x xs)
    have hxs : c ∉ xs := fun hm => h (List.mem_cons_of_mem x hm)
    simp [takeUntilIdx, List.isPrefixOf, hx, ih hxs]

/-- Claim C2 amended: `parse_property_value` never splits its region: every
successful result is a one-element sequence whose sole fragment, concatenated
with the unconsumed remainder, reconstructs the input verbatim. -/
theorem C2_theorem (input rest : Input) (vs : List Input)
    (h : parse_property_value input = .ok (rest, vs)) :
    vs.length = 1 ∧ vs.headI ++ rest = input := by
  unfold parse_property_value take_until at h
  cases e : takeUntilIdx LF input with
  | none => rw [e] at h; exact absurd h (by simp)
  | some k =>
    rw [e] at h
    simp only [Except.ok.injEq, Prod.mk.injEq] at h
    obtain ⟨hrest, hvs⟩ := h
    subst hrest hvs
    exact ⟨rfl, by simp⟩

/-- Witness for C2: on `a,b,c` followed by the terminator, the single verbatim
fragment is `a,b,c`. -/
theorem C2_witness :
    parse_property_value (("a,b,c\r\n").data) = .ok ((("\r\n").data), [ (("a,b,c").data) ]) ∧
      [ (("a,b,c").data) ].length = 1 ∧
      [ (("a,b,c").data) ].headI ++ (("\r\n").data) = ("a,b,c\r\n").data :=
  ⟨rfl, C2_theorem _ _ _ rfl⟩

/-- Claim C3 amended: whenever a `;` occurs anywhere in the remaining input
(its first occurrence at index `k`), the name token is everything before it,
even if a `:` or a line terminator occurs earlier: the `;`-scan is attempted
first and is not stopped by an intervening `:`. -/
theorem C3_theorem (input : Input) (k : Nat)
    (h1 : takeUntilIdx SEMI input = some k)
    (h2 : to_uppercase (input.take k) ≠ END) :
    parse_property_name input = .ok (input.drop k, input.take k) := by
  simp [parse_property_name, alt, take_until, h1, h2]

/-- Witness for C3: on `FN:a;b` the first `;` is at index 4, so the name token
is `FN:a`. -/
theorem C3_witness :
    takeUntilIdx SEMI (("FN:a;b").data) = some 4 ∧
      to_uppercase ((("FN:a;b").data).take 4) ≠ END ∧
      parse_property_name (("FN:a;b").data) =
        .ok ((("FN:a;b").data).drop 4, (("FN:a;b").data).take 4) :=
  ⟨rfl, by decide, C3_theorem _ 4 rfl (by decide)⟩

/-- Claim C5 amended: a property parse fails for lack of a terminating `:` only
when neither `;` nor `:` occurs anywhere in the whole remaining input (not per
logical line); the failure is the generic nom `TakeUntil` error on that whole
remaining input. -/
theorem C5_theorem (input : Input) (h1 : ';' ∉ input) (h2 : ':' ∉ input) :
    parse_property input = .error ⟨input, .TakeUntil⟩ := by
  have e1 : takeUntilIdx SEMI input = none := takeUntilIdx_eq_none ';' input h1
  have e2 : takeUntilIdx COLON input = none := takeUntilIdx_eq_none ':' input h2
  simp [parse_property, parse_property_name, alt, take_until, e1, e2]

/-- Witness for C5: the line `X` contains neither `;` nor `:`, so its property
parse fails with the `TakeUntil` error. -/
theorem C5_witness :
    ';' ∉ (("X").data) ∧ ':' ∉ (("X").data) ∧
      parse_property (("X").data) = .error ⟨(("X").data), .TakeUntil⟩ :=
  ⟨by decide, by decide, C5_theorem _ (by decide) (by decide)⟩

/-- Claim C7: whatever follows the name token, a token that upper-cases to
`END` makes `parse_property` fail (with the nom `Tag` error issued at the
reserved-name check; the program has no dedicated error enum). -/
theorem C7_theorem (input rest name : Input)
    (h1 : alt (take_until SEMI) (take_until COLON) input = .ok (rest, name))
    (h2 : to_uppercase name = END) :
    parse_property input = .error ⟨rest, .Tag⟩ := by
  simp [parse_property, parse_property_name, h1, h2]

/-- Witness for C7: the line `end;x:y` has name token `end`, which is rejected
regardless of the parameter-looking text after it. -/
theorem C7_witness :
    alt (take_until SEMI) (take_until COLON) (("end;x:y\r\n").data) =
        .ok (((";x:y\r\n").data), (("end").data)) ∧
      to_uppercase (("end").data) = END ∧
      parse_property (("end;x:y\r\n").data) = .error ⟨((";x:y\r\n").data), .Tag⟩ :=
  ⟨rfl, by decide, C7_theorem _ _ _ rfl (by decide)⟩

/-- Every record built by `parse_property` has `group := none`. -/
theorem parse_property_group (input i : Input) (p : Property)
    (h : parse_property input = .ok (i, p)) : p.group = none := by
  unfold parse_property at h
  split at h
  · exact absurd h (by simp)
  · split at h
    · exact absurd h (by simp)
    · split at h
      · exact absurd h (by simp)
      · simp only [Except.ok.injEq, Prod.mk.injEq] at h
        rw [← h.2]

/-- Every record produced by the `separated_list1` continuation loop has
`group := none`. -/
theorem sepListLoop_groups (fuel : Nat) :
    ∀ (input i : Input) (ps : List Property),
      sepListLoop fuel input = .ok (i, ps) →
      ps.map Property.group = List.replicate ps.length none := by
  induction fuel with
  | zero =>
    intro input i ps h
    exact absurd h (by simp [sepListLoop])
  | succ fuel ih =>
    intro input i ps h
    unfold sepListLoop at h
    split at h
    · simp only [Except.ok.injEq, Prod.mk.injEq] at h
      rw [← h.2]; rfl
    · split at h
      · exact absurd h (by simp)
      · split at h
        · simp only [Except.ok.injEq, Prod.mk.injEq] at h
          rw [← h.2]; rfl
        · split at h
          · exact absurd h (by simp)
          · rename_i i2 o heq1 x2 i3 os heq2
            simp only [Except.ok.injEq, Prod.mk.injEq] at h
            rw [← h.2]
            have hg : o.group = none := parse_property_group _ _ _ heq1
            have hrest := ih i2 i3 os heq2
            simp [hg, hrest, List.replicate_succ]

/-- Every record in a successful `parse_properties` result has `group := none`. -/
theorem parse_properties_groups (input i : Input) (ps : List Property)
    (h : parse_properties input = .ok (i, ps)) :
    ps.map Property.group = List.replicate ps.length none := by
  unfold parse_properties at h
  split at h
  · exact absurd h (by simp)
  · split at h
    · exact absurd h (by simp)
    · rename_i i1 o heq1 x2 i2 os heq2
      simp only [Except.ok.injEq, Prod.mk.injEq] at h
      rw [← h.2]
      have hg : o.group = none := parse_property_group _ _ _ heq1
      have hrest := sepListLoop_groups _ _ _ _ heq2
      simp [hg, hrest, List.replicate_succ]

/-- Claim C10: every record in a successful `parse` result has `group = none`:
`parse_property` hard-codes `group: None` and never extracts a group prefix. -/
theorem C10_theorem (input i : Input) (ps : List Property)
    (h : parse input = .ok (i, ps)) :
    ps.map Property.group = List.replicate ps.length none := by
  unfold parse at h
  split at h
  · exact absurd h (by simp)
  · split at h
    · exact absurd h (by simp)
    · split at h
      · exact absurd h (by simp)
      · split at h
        · exact absurd h (by simp)
        · split at h
          · exact absurd h (by simp)
          · rename_i i3 properties heq3 x4 i4 v4 heq4 x5 i5 u5 heq5
            simp only [Except.ok.injEq, Prod.mk.injEq] at h
            rw [← h.2]
            exact parse_properties_groups _ _ _ heq3

/-- Witness for C10: the one record parsed from the scenario input has no group. -/
theorem C10_witness :
    parse c1input = .ok ([], [ c1rec ]) ∧
      [ c1rec ].map Property.group = List.replicate ([ c1rec ].length) none :=
  ⟨rfl, C10_theorem c1input [] [ c1rec ] rfl⟩

/-- Unfolding `allAscii` over a cons cell. -/
theorem allAscii_cons (c : Char) (cs : Input) :
    allAscii (c :: cs) = true ↔ c.toNat < 128 ∧ allAscii cs = true := by
  simp [allAscii]

/-- ASCII strings have as many UTF-8 bytes as characters. -/
theorem byteLen_ascii (s : Input) (h : allAscii s = true) : byteLen s = s.length := by
  induction s with
  | nil => rfl
  | cons c cs ih =>
    obtain ⟨h1, h2⟩ := (allAscii_cons c cs).mp h
    have ihh := ih h2
    simp only [byteLen, List.map_cons, List.sum_cons, List.length_cons, utf8Len] at ihh ⊢
    rw [if_pos h1]
    omega

/-- For ASCII strings every index up to the length is a character boundary,
and byte splitting is plain `take`/`drop`. -/
theorem byteSplit_ascii (s : Input) (h : allAscii s = true) :
    ∀ i, i ≤ s.length → byteSplit s i = some (s.take i, s.drop i) := by
  induction s with
  | nil =>
    intro i hi
    have : i = 0 := Nat.le_zero.mp hi
    subst this
    rfl
  | cons c cs ih =>
    intro i hi
    cases i with
    | zero => rfl
    | succ n =>
      obtain ⟨h1, h2⟩ := (allAscii_cons c cs).mp h
      have hu : utf8Len c = 1 := by simp [utf8Len, h1]
      simp only [byteSplit, hu]
      rw [if_pos (by omega)]
      have hn : n + 1 - 1 = n := rfl
      rw [hn, ih h2 n (by simpa using hi)]
      simp

/-- ASCII is preserved by the splice that removes a fold marker. -/
theorem allAscii_take_drop (s : Input) (h : allAscii s = true) (i j : Nat) :
    allAscii (s.take i ++ (s.drop i).drop j) = true := by
  simp only [allAscii, List.all_eq_true, List.mem_append, decide_eq_true_eq] at h ⊢
  intro c hc
  rcases hc with hc | hc
  · exact h c (List.mem_of_mem_take hc)
  · exact h c (List.mem_of_mem_drop (List.mem_of_mem_drop hc))

/-- A suffix passing both `starts_with` checks of the loop decomposes as the
three marker characters followed by the rest. -/
theorem marker_decomp (l : Input) (h1 : LF.isPrefixOf l = true)
    (h2 : ([ ' ' ]).isPrefixOf (l.drop 2) = true) :
    l = '\r' :: '\n' :: ' ' :: l.drop 3 := by
  rcases l with _ | ⟨a, _ | ⟨b, _ | ⟨c, tl⟩⟩⟩ <;> simp_all [LF, List.isPrefixOf]
  exact ⟨h1.1.symm, h1.2.symm, h2.symm⟩

/-- The fold-marker prefix test is the conjunction of the two `starts_with`
checks performed by the loop. -/
theorem marker_prefix_split (l : Input) :
    marker.isPrefixOf l = (LF.isPrefixOf l && ([ ' ' ]).isPrefixOf (l.drop 2)) := by
  rcases l with _ | ⟨a, _ | ⟨b, _ | ⟨c, tl⟩⟩⟩ <;>
    simp [marker, LF, List.isPrefixOf, Bool.and_assoc]

/-- If a marker occurs in the suffix at `i` but not at position `i` itself,
it occurs in the suffix at `i + 1`. -/
theorem hasMarker_tail (s : Input) (i : Nat) (hlt : i < s.length)
    (hm : hasMarker (s.drop i) = true)
    (hnp : marker.isPrefixOf (s.drop i) = false) :
    hasMarker (s.drop (i + 1)) = true := by
  rw [List.drop_eq_getElem_cons hlt] at hm hnp
  rw [hasMarker, hnp] at hm
  simpa using hm

/-- On ASCII input the loop never panics, never grows the string and
preserves ASCII-ness. -/
theorem unfoldLoop_ascii (fuel : Nat) :
    ∀ (s : Input) (i : Nat), allAscii s = true → s.length - i < fuel →
      ∃ t, unfoldLoop fuel s i = some t ∧ t.length ≤ s.length ∧ allAscii t = true := by
  induction fuel with
  | zero =>
    intro s i _ hf
    exact absurd hf (Nat.not_lt_zero _)
  | succ fuel ih =>
    intro s i ha hf
    unfold unfoldLoop
    rw [byteLen_ascii s ha]
    by_cases hle : s.length ≤ i
    · rw [if_pos hle]
      exact ⟨s, rfl, le_refl _, ha⟩
    · rw [if_neg hle]
      have hlt : i < s.length := by omega
      simp only [byteSplit_ascii s ha i (le_of_lt hlt)]
      by_cases h1 : LF.isPrefixOf (s.drop i) = true
      · rw [if_pos h1]
        by_cases h2 : ([ ' ' ]).isPrefixOf ((s.drop i).drop 2) = true
        · rw [if_pos h2]
          have hdec := marker_decomp _ h1 h2
          have hge3 : 3 ≤ s.length - i := by
            have hle := congrArg List.length hdec
            simp only [List.length_cons] at hle
            have hdl : (List.drop i s).length = s.length - i := List.length_drop i s
            omega
          have ha1 : allAscii (s.take i ++ (s.drop i).drop 3) = true :=
            allAscii_take_drop s ha i 3
          have hl1 : (s.take i ++ (s.drop i).drop 3).length = s.length - 3 := by
            simp only [List.length_append, List.length_take, List.length_drop]
            omega
          obtain ⟨t, ht, htl, hta⟩ := ih _ (i + 1) ha1 (by rw [hl1]; omega)
          exact ⟨t, ht, by omega, hta⟩
        · rw [if_neg h2]
          obtain ⟨t, ht, htl, hta⟩ := ih s (i + 1) ha (by omega)
          exact ⟨t, ht, htl, hta⟩
      · rw [if_neg h1]
        obtain ⟨t, ht, htl, hta⟩ := ih s (i + 1) ha (by omega)
        exact ⟨t, ht, htl, hta⟩

/-- On ASCII input still containing a fold marker at or after the scan
position, the loop returns a strictly shorter string. -/
theorem unfoldLoop_shrink (fuel : Nat) :
    ∀ (s : Input) (i : Nat), allAscii s = true → s.length - i < fuel →
      hasMarker (s.drop i) = true →
      ∃ t, unfoldLoop fuel s i = some t ∧ t.length < s.length := by
  induction fuel with
  | zero =>
    intro s i _ hf _
    exact absurd hf (Nat.not_lt_zero _)
  | succ fuel ih =>
    intro s i ha hf hm
    have hlt : i < s.length := by
      by_contra hc
      push_neg at hc
      rw [List.drop_eq_nil_of_le hc] at hm
      simp [hasMarker] at hm
    unfold unfoldLoop
    rw [byteLen_ascii s ha, if_neg (by omega)]
    simp only [byteSplit_ascii s ha i (le_of_lt hlt)]
    by_cases h1 : LF.isPrefixOf (s.drop i) = true
    · rw [if_pos h1]
      by_cases h2 : ([ ' ' ]).isPrefixOf ((s.drop i).drop 2) = true
      · rw [if_pos h2]
        have hdec := marker_decomp _ h1 h2
        have hge3 : 3 ≤ s.length - i := by
          have hle := congrArg List.length hdec
          simp only [List.length_cons] at hle
          have hdl : (List.drop i s).length = s.length - i := List.length_drop i s
          omega
        have ha1 : allAscii (s.take i ++ (s.drop i).drop 3) = true :=
          allAscii_take_drop s ha i 3
        have hl1 : (s.take i ++ (s.drop i).drop 3).length = s.length - 3 := by
          simp only [List.length_append, List.length_take, List.length_drop]
          omega
        obtain ⟨t, ht, htl, _⟩ := unfoldLoop_ascii fuel _ (i + 1) ha1 (by rw [hl1]; omega)
        exact ⟨t, ht, by omega⟩
      · rw [if_neg h2]
        have hnp : marker.isPrefixOf (s.drop i) = false := by
          rw [marker_prefix_split, Bool.and_eq_false_iff]
          right
          exact Bool.eq_false_iff.mpr h2
        obtain ⟨t, ht, htl⟩ := ih s (i + 1) ha (by omega) (hasMarker_tail s i hlt hm hnp)
        exact ⟨t, ht, htl⟩
    · rw [if_neg h1]
      have hnp : marker.isPrefixOf (s.drop i) = false := by
        rw [marker_prefix_split, Bool.and_eq_false_iff]
        left
        exact Bool.eq_false_iff.mpr h1
      obtain ⟨t, ht, htl⟩ := ih s (i + 1) ha (by omega) (hasMarker_tail s i hlt hm hnp)
      exact ⟨t, ht, htl⟩

/-- Claim C4 amended: `unfold` is not idempotent (see `C4_counterexample`);
what holds is that on any ASCII input still containing a fold marker, a single
`unfold` pass terminates normally and strictly decreases the length, so
iterating `unfold` reaches a marker-free fixed point. -/
theorem C4_theorem (s : Input) (ha : allAscii s = true) (hm : hasMarker s = true) :
    (unfold s).isSome = true ∧ ((unfold s).getD s).length < s.length := by
  obtain ⟨t, ht, htl⟩ :=
    unfoldLoop_shrink (byteLen s + 1) s 0 ha (by rw [byteLen_ascii s ha]; omega)
      (by simpa using hm)
  constructor
  · show (unfoldLoop (byteLen s + 1) s 0).isSome = true
    rw [ht]
    rfl
  · show ((unfoldLoop (byteLen s + 1) s 0).getD s).length < s.length
    rw [ht]
    simpa using htl

/-- Witness for C4: the input `a\r\n b` contains a marker and is strictly
shortened by one pass. -/
theorem C4_witness :
    allAscii (("a\r\n b").data) = true ∧ hasMarker (("a\r\n b").data) = true ∧
      ((unfold (("a\r\n b").data)).isSome = true ∧
        ((unfold (("a\r\n b").data)).getD (("a\r\n b").data)).length <
          (("a\r\n b").data).length) :=
  ⟨by decide, by decide, C4_theorem _ (by decide) (by decide)⟩

/-- Claim C6 amended: `unfold` terminates normally (no panic) on every ASCII
input; on input containing a multi-byte UTF-8 character it panics (see
`C6_counterexample`). -/
theorem C6_theorem (s : Input) (ha : allAscii s = true) : (unfold s).isSome = true := by
  obtain ⟨t, ht, _, _⟩ :=
    unfoldLoop_ascii (byteLen s + 1) s 0 ha (by rw [byteLen_ascii s ha]; omega)
  show (unfoldLoop (byteLen s + 1) s 0).isSome = true
  rw [ht]
  rfl

/-- Witness for C6: a folded ASCII line is unfolded without a panic. -/
theorem C6_witness :
    allAscii (("NOTE:abc\r\n def").data) = true ∧
      (unfold (("NOTE:abc\r\n def").data)).isSome = true :=
  ⟨by decide, C6_theorem _ (by decide)⟩

end VCF
